import Mathlib

/-!
Shallow embedding of the core filter/aggregation pipeline of the
category-analysis dashboard (`src/main.py`, with the brand variant in
`src/main_bakcup.py`).

Modelling choices:
* A dataframe is a `List Record`; prices are exact rationals, quantity a
  natural number, dimension values strings.
* `orderDate` is a timestamp that is either timezone-naive or an aware UTC
  instant; `pd.to_datetime(·, utc=True)` is modelled by `TS.toUTC`, which
  localizes a naive timestamp as UTC and leaves an aware one unchanged
  (idempotent, as in pandas).
* `filter_data` and `filter_data_by_date` reassign the `orderDate` column of
  their input in place (lines 29 and 46 of `src/main.py`); each Lean model
  therefore returns the post-call state of `_data` in the first component and
  the returned value (or the pandas exception) in the second.  Comparing the
  datetime column against `None` raises a `TypeError` in pandas, modelled by
  `Except.error PyError.typeError`.
* Float division by the pandas `/` operator is modelled exactly on rationals,
  with the IEEE-754 zero-denominator outcomes made explicit by `FVal`
  (`a / 0 = +inf` for `a > 0`, `-inf` for `a < 0`, `NaN` for `0 / 0`).
* `groupby('categoryName').agg(...)` is modelled by grouping on a key
  function; the model enumerates the distinct keys in `List.dedup` order
  (pandas sorts the keys; no property proved here depends on the key order).
-/

/-- A pandas timestamp: either timezone-naive (wall-clock integer) or an
aware UTC instant. -/
inductive TS where
  | naive : ℤ → TS
  | utc : ℤ → TS
deriving DecidableEq, Repr

/-- Model of `pd.to_datetime(·, utc=True)`: a naive timestamp is localized as
UTC, an aware one is already a UTC instant. Idempotent. -/
def TS.toUTC : TS → TS
  | .naive t => .utc t
  | .utc t => .utc t

/-- The instant used by pandas datetime comparisons (all comparisons in the
source happen after UTC coercion). -/
def TS.instant : TS → ℤ
  | .naive t => t
  | .utc t => t

theorem TS.toUTC_idem (t : TS) : t.toUTC.toUTC = t.toUTC := by
  cases t <;> rfl

/-- One row of the uploaded table (§3 of the spec). -/
structure Record where
  orderDate : TS
  categoryName : String
  storeName : String
  brandName : String
  productName : String
  sellingPrice : ℚ
  costPrice : ℚ
  quantity : ℕ
deriving DecidableEq, Repr

/-- The in-place `_data['orderDate'] = pd.to_datetime(_data['orderDate'],
utc=True)` applied to one row. -/
def normRecord (r : Record) : Record :=
  { r with orderDate := r.orderDate.toUTC }

theorem normRecord_idem (r : Record) : normRecord (normRecord r) = normRecord r := by
  simp [normRecord, TS.toUTC_idem]

/-- Exceptions raised by the pandas layer: `typeError` for comparing a
datetime column with `None`; `invalidRange` is the error the spec's §7
taxonomy prescribes for a missing bound (never produced by this code). -/
inductive PyError where
  | typeError
  | invalidRange
deriving DecidableEq, Repr

/-- The boolean mask of `src/main.py` lines 32-33, applied to one (already
normalized) row: date within bounds, category and store selected. -/
def passes (su eu : TS) (categories stores : List String) (r : Record) : Bool :=
  decide (su.instant ≤ r.orderDate.instant) && decide (r.orderDate.instant ≤ eu.instant)
    && categories.contains r.categoryName && stores.contains r.storeName

/-- Model of `filter_data(_data, categories, stores, start_date, end_date)`,
`src/main.py` lines 23-36.  The first component is the state of `_data` after
the call (the `orderDate` column is reassigned before the mask is built, so
the column is normalized even when the mask raises); the second is the
returned frame, or the `TypeError` pandas raises when a bound is `None`. -/
def filter_data (_data : List Record) (categories stores : List String)
    (start_date end_date : Option TS) :
    List Record × Except PyError (List Record) :=
  let d := _data.map normRecord
  match start_date.map TS.toUTC, end_date.map TS.toUTC with
  | some su, some eu => (d, .ok (d.filter (passes su eu categories stores)))
  | _, _ => (d, .error .typeError)

/-- Floating-point value produced by the pandas `/` operator on exact
operands: a finite rational, an infinity, or NaN. -/
inductive FVal where
  | val : ℚ → FVal
  | posInf
  | negInf
  | nan
deriving DecidableEq, Repr

/-- IEEE-754 division on exact operands, as pandas performs it: division by
zero silently yields an infinity (or NaN for `0 / 0`). -/
def fdiv (a b : ℚ) : FVal :=
  if b = 0 then
    if 0 < a then .posInf else if a < 0 then .negInf else .nan
  else .val (a / b)

/-- Multiplication by the positive constant `100` in the margin formulas. -/
def FVal.mul100 : FVal → FVal
  | .val q => .val (q * 100)
  | .posInf => .posInf
  | .negInf => .negInf
  | .nan => .nan

/-- One row of an aggregated table: the group key and the derived metric
columns of `src/main.py` lines 53-60 / 157-167. -/
structure AggRow (κ : Type) where
  key : κ
  total_sales : ℚ
  total_cost : ℚ
  total_quantity : ℕ
  profit : ℚ
  profit_margin : FVal
deriving DecidableEq, Repr

/-- The records of a group: the rows of `d` whose dimension value is `k`. -/
def groupOf {κ : Type} [DecidableEq κ] (key : Record → κ) (d : List Record)
    (k : κ) : List Record :=
  d.filter (fun r => decide (key r = k))

/-- The distinct group keys (their order is irrelevant to every property
proved here; pandas sorts them). -/
def aggKeys {κ : Type} [DecidableEq κ] (key : Record → κ) (d : List Record) :
    List κ :=
  (d.map key).dedup

/-- Column `total_sales=('sellingPrice', lambda x: (x * df.loc[x.index, 'quantity']).sum())`. -/
def salesOf (g : List Record) : ℚ :=
  (g.map (fun r => r.sellingPrice * (r.quantity : ℚ))).sum

/-- Column `total_cost=('costPrice', lambda x: (x * df.loc[x.index, 'quantity']).sum())`. -/
def costOf (g : List Record) : ℚ :=
  (g.map (fun r => r.costPrice * (r.quantity : ℚ))).sum

/-- Column `total_quantity=('quantity', 'sum')`. -/
def qtyOf (g : List Record) : ℕ :=
  (g.map Record.quantity).sum

/-- The aggregation of `filter_data_by_date` (`src/main.py` lines 53-60):
group sums plus `profit = total_sales - total_cost` and
`profit_margin = profit / total_sales * 100`. -/
def category_aggregated {κ : Type} [DecidableEq κ] (key : Record → κ)
    (d : List Record) : List (AggRow κ) :=
  (aggKeys key d).map fun k =>
    let g := groupOf key d k
    { key := k
      total_sales := salesOf g
      total_cost := costOf g
      total_quantity := qtyOf g
      profit := salesOf g - costOf g
      profit_margin := (fdiv (salesOf g - costOf g) (salesOf g)).mul100 }

/-- The `overall_analysis` aggregation (`src/main.py` lines 157-167): same
group sums and profit, but
`profit_margin = profit / (total_sales + total_cost) * 100`. -/
def overall_analysis {κ : Type} [DecidableEq κ] (key : Record → κ)
    (d : List Record) : List (AggRow κ) :=
  (aggKeys key d).map fun k =>
    let g := groupOf key d k
    { key := k
      total_sales := salesOf g
      total_cost := costOf g
      total_quantity := qtyOf g
      profit := salesOf g - costOf g
      profit_margin := (fdiv (salesOf g - costOf g) (salesOf g + costOf g)).mul100 }

/-- The date-only mask of `src/main.py` line 49. -/
def passesDate (su eu : TS) (r : Record) : Bool :=
  decide (su.instant ≤ r.orderDate.instant) && decide (r.orderDate.instant ≤ eu.instant)

/-- Model of `filter_data_by_date(_data, start_date, end_date)`, `src/main.py`
lines 40-62: date-only filter followed by the category aggregation.  As with
`filter_data`, the first component is the post-call state of `_data`. -/
def filter_data_by_date (_data : List Record) (start_date end_date : Option TS) :
    List Record × Except PyError (List Record × List (AggRow String)) :=
  let d := _data.map normRecord
  match start_date.map TS.toUTC, end_date.map TS.toUTC with
  | some su, some eu =>
      let date_filtered := d.filter (passesDate su eu)
      (d, .ok (date_filtered, category_aggregated (fun r => r.categoryName) date_filtered))
  | _, _ => (d, .error .typeError)

/-- Row count of one category value, as `value_counts()` counts it. -/
def countOf (data : List Record) (k : String) : ℕ :=
  (data.filter (fun r => r.categoryName == k)).length

/-- Stable descending insertion by count: models the ordering of
`value_counts()` (most frequent first; ties keep the order in which the
distinct values are enumerated). -/
def insertByCount (data : List Record) (k : String) : List String → List String
  | [] => [k]
  | k2 :: rest =>
      if countOf data k2 < countOf data k then k :: k2 :: rest
      else k2 :: insertByCount data k rest

/-- The index of `data['categoryName'].value_counts()`: the distinct category
values sorted by descending row count. -/
def valueCountsIndex (data : List Record) : List String → List String
  | [] => []
  | k :: ks => insertByCount data k (valueCountsIndex data ks)

/-- Model of `get_top_categories(data, n)`, `src/main.py` lines 67-68:
`value_counts().head(n).index.tolist()`. -/
def get_top_categories (data : List Record) (n : ℕ) : List String :=
  (valueCountsIndex data ((data.map Record.categoryName).dedup)).take n

/-- The default of the `n_categories` number input (`src/main.py` line 114):
`min(250, n_categories_available)`. -/
def n_categories_default (data : List Record) : ℕ :=
  min 250 ((data.map Record.categoryName).dedup).length

/-- Line 143 of `src/main.py`: the sidebar selection if non-empty, otherwise
the top-categories default. -/
def selected_categories (sidebar top : List String) : List String :=
  if sidebar.isEmpty then top else sidebar

/-! ### Helper lemmas for group-by conservation -/

/-- Splitting a mapped sum along a boolean predicate. -/
theorem sum_map_filter_split {α M : Type} [AddCommMonoid M] (p : α → Bool)
    (f : α → M) (l : List α) :
    ((l.filter p).map f).sum + ((l.filter (fun a => !p a)).map f).sum
      = (l.map f).sum := by
  induction l with
  | nil => simp
  | cons a l ih =>
      cases h : p a <;>
        simp only [List.filter_cons, h, Bool.not_true, Bool.not_false, if_pos, if_neg,
          Bool.false_eq_true, not_false_iff, List.map_cons, List.sum_cons, ite_true,
          ite_false] <;> rw [← ih] <;> abel

/-- Restricting to a different key first does not change a key's group. -/
theorem filter_key_of_ne {α κ : Type} [DecidableEq κ] (key : α → κ) {k k2 : κ}
    (hne : k2 ≠ k) (l : List α) :
    (l.filter (fun a => !decide (key a = k))).filter (fun a => decide (key a = k2))
      = l.filter (fun a => decide (key a = k2)) := by
  rw [List.filter_filter]
  refine List.filter_congr ?_
  intro a _
  by_cases h : key a = k2
  · simp [h, hne]
  · simp [h]

/-- Summing group sums over a complete, duplicate-free key list recovers the
sum over the whole list. -/
theorem sum_over_groups {α κ M : Type} [DecidableEq κ] [AddCommMonoid M]
    (key : α → κ) (f : α → M) :
    ∀ (keys : List κ) (l : List α), keys.Nodup → (∀ a ∈ l, key a ∈ keys) →
      (keys.map (fun k => ((l.filter (fun a => decide (key a = k))).map f).sum)).sum
        = (l.map f).sum := by
  intro keys
  induction keys with
  | nil =>
      intro l _ hcov
      have : l = [] := by
        cases l with
        | nil => rfl
        | cons a l => exact absurd (hcov a (List.mem_cons_self a l)) (List.not_mem_nil _)
      simp [this]
  | cons k ks ih =>
      intro l hnd hcov
      have hknotin : k ∉ ks := (List.nodup_cons.mp hnd).1
      have hndks : ks.Nodup := (List.nodup_cons.mp hnd).2
      have hcov2 : ∀ a ∈ l.filter (fun a => !decide (key a = k)), key a ∈ ks := by
        intro a ha
        have hmem := (List.mem_filter.mp ha).1
        have hne : ¬ key a = k := by
          have := (List.mem_filter.mp ha).2
          simpa using this
        have := hcov a hmem
        cases List.mem_cons.mp this with
        | inl h => exact absurd h hne
        | inr h => exact h
      have hrec := ih (l.filter (fun a => !decide (key a = k))) hndks hcov2
      have hmapeq :
          (ks.map (fun k2 =>
            (((l.filter (fun a => !decide (key a = k))).filter
              (fun a => decide (key a = k2))).map f).sum))
          = (ks.map (fun k2 =>
              ((l.filter (fun a => decide (key a = k2))).map f).sum)) := by
        refine List.map_congr_left ?_
        intro k2 hk2
        have hne : k2 ≠ k := by
          intro h
          exact hknotin (h ▸ hk2)
        rw [filter_key_of_ne key hne]
      calc
        ((k :: ks).map (fun k2 =>
            ((l.filter (fun a => decide (key a = k2))).map f).sum)).sum
            = ((l.filter (fun a => decide (key a = k))).map f).sum
              + (ks.map (fun k2 =>
                  ((l.filter (fun a => decide (key a = k2))).map f).sum)).sum := by
              simp
        _ = ((l.filter (fun a => decide (key a = k))).map f).sum
              + ((l.filter (fun a => !decide (key a = k))).map f).sum := by
              rw [← hmapeq, hrec]
        _ = (l.map f).sum := sum_map_filter_split _ f l

theorem aggKeys_nodup {κ : Type} [DecidableEq κ] (key : Record → κ)
    (d : List Record) : (aggKeys key d).Nodup :=
  List.nodup_dedup _

theorem mem_aggKeys_of_mem {κ : Type} [DecidableEq κ] (key : Record → κ)
    {d : List Record} {r : Record} (hr : r ∈ d) : key r ∈ aggKeys key d :=
  List.mem_dedup.mpr (List.mem_map_of_mem key hr)

/-- C3: for every dataset and every grouping dimension, the sums of
`total_sales`, `total_cost` and `total_quantity` over the rows of the
aggregation equal Σ sellingPrice·quantity, Σ costPrice·quantity and
Σ quantity over the records of the dataset — for both aggregation paths
(the `filter_data_by_date` one and the `overall_analysis` one, whose group
sums coincide). -/
theorem aggregate_conserves_totals {κ : Type} [DecidableEq κ]
    (key : Record → κ) (d : List Record) :
    ((category_aggregated key d).map AggRow.total_sales).sum
        = (d.map (fun r => r.sellingPrice * (r.quantity : ℚ))).sum
    ∧ ((category_aggregated key d).map AggRow.total_cost).sum
        = (d.map (fun r => r.costPrice * (r.quantity : ℚ))).sum
    ∧ ((category_aggregated key d).map AggRow.total_quantity).sum
        = (d.map Record.quantity).sum
    ∧ ((overall_analysis key d).map AggRow.total_sales).sum
        = (d.map (fun r => r.sellingPrice * (r.quantity : ℚ))).sum
    ∧ ((overall_analysis key d).map AggRow.total_cost).sum
        = (d.map (fun r => r.costPrice * (r.quantity : ℚ))).sum
    ∧ ((overall_analysis key d).map AggRow.total_quantity).sum
        = (d.map Record.quantity).sum := by
  have hcov : ∀ a ∈ d, key a ∈ aggKeys key d := fun a ha => mem_aggKeys_of_mem key ha
  refine ⟨?_, ?_, ?_, ?_, ?_, ?_⟩
  · have h := sum_over_groups key (fun r => r.sellingPrice * (r.quantity : ℚ))
      (aggKeys key d) d (aggKeys_nodup key d) hcov
    simpa [category_aggregated, groupOf, salesOf, List.map_map, Function.comp] using h
  · have h := sum_over_groups key (fun r => r.costPrice * (r.quantity : ℚ))
      (aggKeys key d) d (aggKeys_nodup key d) hcov
    simpa [category_aggregated, groupOf, costOf, List.map_map, Function.comp] using h
  · have h := sum_over_groups key Record.quantity
      (aggKeys key d) d (aggKeys_nodup key d) hcov
    simpa [category_aggregated, groupOf, qtyOf, List.map_map, Function.comp] using h
  · have h := sum_over_groups key (fun r => r.sellingPrice * (r.quantity : ℚ))
      (aggKeys key d) d (aggKeys_nodup key d) hcov
    simpa [overall_analysis, groupOf, salesOf, List.map_map, Function.comp] using h
  · have h := sum_over_groups key (fun r => r.costPrice * (r.quantity : ℚ))
      (aggKeys key d) d (aggKeys_nodup key d) hcov
    simpa [overall_analysis, groupOf, costOf, List.map_map, Function.comp] using h
  · have h := sum_over_groups key Record.quantity
      (aggKeys key d) d (aggKeys_nodup key d) hcov
    simpa [overall_analysis, groupOf, qtyOf, List.map_map, Function.comp] using h

/-- C8: aggregating an empty dataset yields an empty sequence of aggregate
rows (never an error), for every grouping dimension and both aggregation
paths; `filter_data_by_date` on an empty dataset likewise returns empty
frames without raising. -/
theorem aggregate_empty {κ : Type} [DecidableEq κ] (key : Record → κ)
    (s e : TS) :
    category_aggregated key [] = []
    ∧ overall_analysis key [] = []
    ∧ filter_data_by_date [] (some s) (some e) = ([], .ok ([], [])) := by
  refine ⟨rfl, rfl, ?_⟩
  simp [filter_data_by_date, category_aggregated, aggKeys]

/-! ### Concrete sample rows used by witnesses and counterexamples -/

/-- Convenience constructor for a concrete transaction row. -/
def mkRec (t : TS) (cat store : String) (sell cost : ℚ) (q : ℕ) : Record :=
  { orderDate := t, categoryName := cat, storeName := store, brandName := "B1",
    productName := "P1", sellingPrice := sell, costPrice := cost, quantity := q }

/-- A two-row dataset with UTC-normalized dates; the second row falls outside
the range [0, 10]. -/
def wData : List Record :=
  [mkRec (.utc 3) "A" "S1" 10 6 2, mkRec (.utc 20) "A" "S1" 10 6 1]

/-- C1: on a dataset whose `orderDate` column is already UTC-normalized (the
data-model invariant of §3), `filter_data` succeeds and returns a subsequence
of the input — original relative order kept, no records invented — and a
record of the input appears in the result exactly when its UTC-normalized
`orderDate` lies within the inclusive bounds, its `categoryName` is selected
and its `storeName` is selected. -/
theorem filter_data_subsequence_iff (D : List Record) (cats stores : List String)
    (s e : TS) (hnorm : ∀ r ∈ D, normRecord r = r) :
    ∃ fd, (filter_data D cats stores (some s) (some e)).2 = Except.ok fd
      ∧ List.Sublist fd D
      ∧ ∀ r ∈ D, (r ∈ fd ↔
          (s.toUTC.instant ≤ r.orderDate.toUTC.instant
            ∧ r.orderDate.toUTC.instant ≤ e.toUTC.instant
            ∧ r.categoryName ∈ cats ∧ r.storeName ∈ stores)) := by
  have hmap : D.map normRecord = D := by
    simpa using List.map_congr_left hnorm
  refine ⟨D.filter (passes s.toUTC e.toUTC cats stores), ?_, List.filter_sublist D, ?_⟩
  · simp [filter_data, hmap]
  · intro r hr
    have hdate : r.orderDate.toUTC = r.orderDate := by
      have h := hnorm r hr
      simpa [normRecord] using congrArg Record.orderDate h
    rw [List.mem_filter]
    simp [passes, hdate, hr, and_assoc]

/-- Closed instance of C1 at a concrete dataset, range and selections. -/
theorem filter_data_subsequence_iff_witness :
    (∀ r ∈ wData, normRecord r = r)
    ∧ ∃ fd, (filter_data wData ["A"] ["S1"] (some (.utc 0)) (some (.utc 10))).2 = Except.ok fd
        ∧ List.Sublist fd wData
        ∧ ∀ r ∈ wData, (r ∈ fd ↔
            ((TS.utc 0).toUTC.instant ≤ r.orderDate.toUTC.instant
              ∧ r.orderDate.toUTC.instant ≤ (TS.utc 10).toUTC.instant
              ∧ r.categoryName ∈ ["A"] ∧ r.storeName ∈ ["S1"])) :=
  ⟨by decide, filter_data_subsequence_iff wData ["A"] ["S1"] (.utc 0) (.utc 10) (by decide)⟩

instance exceptDecEq {ε α : Type} [DecidableEq ε] [DecidableEq α] :
    DecidableEq (Except ε α) := fun x y =>
  match x, y with
  | .error a, .error b =>
      if h : a = b then isTrue (by rw [h])
      else isFalse (fun hh => h (Except.error.inj hh))
  | .error _, .ok _ => isFalse (fun hh => Except.noConfusion hh)
  | .ok _, .error _ => isFalse (fun hh => Except.noConfusion hh)
  | .ok a, .ok b =>
      if h : a = b then isTrue (by rw [h])
      else isFalse (fun hh => h (Except.ok.inj hh))

/-- C9: filtering an already-filtered result again with the same criteria
returns it unchanged. -/
theorem filter_data_idempotent (D : List Record) (cats stores : List String)
    (s e : TS) (fd : List Record)
    (h : (filter_data D cats stores (some s) (some e)).2 = Except.ok fd) :
    (filter_data fd cats stores (some s) (some e)).2 = Except.ok fd := by
  have hfd : (D.map normRecord).filter (passes s.toUTC e.toUTC cats stores) = fd := by
    simpa [filter_data] using h
  have hmem : ∀ x ∈ fd, x ∈ D.map normRecord := by
    intro x hx
    rw [← hfd] at hx
    exact (List.mem_filter.mp hx).1
  have hnorm : ∀ x ∈ fd, normRecord x = x := by
    intro x hx
    obtain ⟨r, _, hr⟩ := List.mem_map.mp (hmem x hx)
    rw [← hr]
    exact normRecord_idem r
  have hmap : fd.map normRecord = fd := by
    simpa using List.map_congr_left hnorm
  have hpass : ∀ x ∈ fd, passes s.toUTC e.toUTC cats stores x = true := by
    intro x hx
    rw [← hfd] at hx
    exact (List.mem_filter.mp hx).2
  simp [filter_data, hmap, List.filter_eq_self.mpr hpass]

/-- Closed instance of C9: re-filtering the filtered sample dataset with the
same criteria is the identity. -/
theorem filter_data_idempotent_witness :
    ((filter_data wData ["A"] ["S1"] (some (.utc 0)) (some (.utc 10))).2
        = Except.ok [mkRec (.utc 3) "A" "S1" 10 6 2])
    ∧ (filter_data [mkRec (.utc 3) "A" "S1" 10 6 2] ["A"] ["S1"]
        (some (.utc 0)) (some (.utc 10))).2 = Except.ok [mkRec (.utc 3) "A" "S1" 10 6 2] :=
  ⟨by decide,
    filter_data_idempotent wData ["A"] ["S1"] (.utc 0) (.utc 10)
      [mkRec (.utc 3) "A" "S1" 10 6 2] (by decide)⟩

/-- C7: with an empty allowed-value set for either dimension, `filter_data`
returns no records — an empty selection matches nothing, for every dataset
and every valid date range. -/
theorem filter_data_empty_selection (D : List Record) (cats stores : List String)
    (s e : TS) :
    (filter_data D [] stores (some s) (some e)).2 = Except.ok []
    ∧ (filter_data D cats [] (some s) (some e)).2 = Except.ok [] := by
  constructor <;> simp [filter_data, List.filter_eq_nil_iff, passes]

/-- A dataset whose single row carries a timezone-naive `orderDate`. -/
def naiveData : List Record := [mkRec (.naive 5) "A" "S1" 10 6 2]

/-- C5 counterexample: `filter_data` is not free of side effects on its
input — after a call on a dataset with a timezone-naive `orderDate`, the
`orderDate` column of the input differs from what it was (line 29 of
`src/main.py` reassigns it in place). -/
theorem filter_data_mutates_input :
    (filter_data naiveData ["A"] ["S1"] (some (.utc 0)) (some (.utc 10))).1
      ≠ naiveData := by decide

/-- C5 amended: the only side effect of `filter_data` and
`filter_data_by_date` is the in-place UTC normalization of the `orderDate`
column; every other column of every record is unchanged, and the
normalization is idempotent, so a second call leaves the dataset exactly as
the first call left it (in particular an already-UTC dataset is unchanged). -/
theorem filter_data_frame_effect (D : List Record) (cats stores : List String)
    (sd ed : Option TS) :
    (filter_data D cats stores sd ed).1 = D.map normRecord
    ∧ (filter_data_by_date D sd ed).1 = D.map normRecord
    ∧ (∀ r : Record, (normRecord r).categoryName = r.categoryName
        ∧ (normRecord r).storeName = r.storeName
        ∧ (normRecord r).brandName = r.brandName
        ∧ (normRecord r).productName = r.productName
        ∧ (normRecord r).sellingPrice = r.sellingPrice
        ∧ (normRecord r).costPrice = r.costPrice
        ∧ (normRecord r).quantity = r.quantity)
    ∧ (filter_data (filter_data D cats stores sd ed).1 cats stores sd ed).1
        = (filter_data D cats stores sd ed).1 := by
  have h1 : ∀ (X : List Record), (filter_data X cats stores sd ed).1 = X.map normRecord := by
    intro X
    cases sd <;> cases ed <;> rfl
  have h2 : (filter_data_by_date D sd ed).1 = D.map normRecord := by
    cases sd <;> cases ed <;> rfl
  refine ⟨h1 D, h2, fun r => ⟨rfl, rfl, rfl, rfl, rfl, rfl, rfl⟩, ?_⟩
  rw [h1, h1, List.map_map]
  exact List.map_congr_left (fun r _ => normRecord_idem r)

/-- C4 (code bug): when `start_date` or `end_date` is `None`, `filter_data`
raises the pandas `TypeError` from comparing the datetime column with `None`
instead of signalling the InvalidRange error the spec prescribes (and the
call site at `src/main.py` line 147 sits outside the `try` block, so the
exception is unhandled). -/
theorem filter_data_null_bound_raises (D : List Record)
    (cats stores : List String) (x : Option TS) :
    (filter_data D cats stores none x).2 = Except.error PyError.typeError
    ∧ (filter_data D cats stores x none).2 = Except.error PyError.typeError
    ∧ Except.error PyError.typeError
        ≠ (Except.error PyError.invalidRange : Except PyError (List Record)) := by
  refine ⟨?_, ?_, by decide⟩ <;> cases x <;> rfl

/-- A dataset with one group of zero total sales (negative profit) and one
ordinary group. -/
def zeroDenomData : List Record :=
  [mkRec (.utc 1) "FREE" "S1" 0 5 1, mkRec (.utc 2) "NORMAL" "S1" 10 6 2]

/-- A dataset whose single group has zero total sales and zero total cost. -/
def zeroBothData : List Record := [mkRec (.utc 1) "FREE" "S1" 0 0 1]

/-- C2 (code bug): neither aggregation path guards the profit-margin
denominator.  On the `filter_data_by_date` path a group with
`total_sales = 0` and negative profit silently gets `-inf`; on the
overall-analysis path a group with `total_sales + total_cost = 0` silently
gets `NaN`.  No undefined marker is signalled, though the other group of the
same dataset is still aggregated. -/
theorem profit_margin_silently_inf_nan :
    (category_aggregated (fun r => r.categoryName) zeroDenomData).map AggRow.profit_margin
      = [FVal.negInf, FVal.val 40]
    ∧ (overall_analysis (fun r => r.categoryName) zeroBothData).map AggRow.profit_margin
      = [FVal.nan] := by
  constructor <;>
  · simp [category_aggregated, overall_analysis, aggKeys, groupOf, salesOf, costOf,
      qtyOf, zeroDenomData, zeroBothData, mkRec,
      List.dedup_cons_of_mem, List.dedup_cons_of_not_mem, List.filter_cons,
      fdiv, FVal.mul100]
    try norm_num

/-- The worked dataset of §8 of the spec: two rows of category A,
`total_sales = 30`, `total_cost = 18`, `profit = 12`. -/
def scenarioData : List Record :=
  [mkRec (.utc 1) "A" "S1" 10 6 2, mkRec (.utc 2) "A" "S1" 10 6 1]

/-- C6: the two margin formulas coexist and are not equivalent.  Every row of
the `filter_data_by_date` aggregation carries
`profit / total_sales * 100` and every row of the overall analysis carries
`profit / (total_sales + total_cost) * 100`, and on the §8 dataset (sales 30,
cost 18, profit 12) the two paths produce 40 and 25 for the same group. -/
theorem profit_margin_formulas_diverge :
    (∀ (κ : Type) [DecidableEq κ] (key : Record → κ) (d : List Record)
        (row : AggRow κ), row ∈ category_aggregated key d →
          row.profit_margin = (fdiv row.profit row.total_sales).mul100)
    ∧ (∀ (κ : Type) [DecidableEq κ] (key : Record → κ) (d : List Record)
        (row : AggRow κ), row ∈ overall_analysis key d →
          row.profit_margin = (fdiv row.profit (row.total_sales + row.total_cost)).mul100)
    ∧ (category_aggregated (fun r => r.categoryName) scenarioData).map AggRow.profit_margin
        = [FVal.val 40]
    ∧ (overall_analysis (fun r => r.categoryName) scenarioData).map AggRow.profit_margin
        = [FVal.val 25]
    ∧ FVal.val 40 ≠ FVal.val 25 := by
  refine ⟨?_, ?_, ?_, ?_, by norm_num⟩
  case refine_3 =>
    norm_num [category_aggregated, aggKeys, groupOf, salesOf, costOf, qtyOf,
      scenarioData, mkRec, fdiv, FVal.mul100, Function.comp,
      List.dedup_cons_of_mem, List.dedup_cons_of_not_mem, List.filter_cons]
  case refine_4 =>
    norm_num [overall_analysis, aggKeys, groupOf, salesOf, costOf, qtyOf,
      scenarioData, mkRec, fdiv, FVal.mul100, Function.comp,
      List.dedup_cons_of_mem, List.dedup_cons_of_not_mem, List.filter_cons]
  · intro κ _ key d row hrow
    simp only [category_aggregated, List.mem_map] at hrow
    obtain ⟨k, _, heq⟩ := hrow
    rw [← heq]
  · intro κ _ key d row hrow
    simp only [overall_analysis, List.mem_map] at hrow
    obtain ⟨k, _, heq⟩ := hrow
    rw [← heq]

/-- The aggregate row the `filter_data_by_date` path produces on the §8
dataset. -/
def scRow40 : AggRow String :=
  { key := "A", total_sales := 30, total_cost := 18, total_quantity := 3,
    profit := 12, profit_margin := .val 40 }

/-- The aggregate row the overall-analysis path produces on the §8 dataset. -/
def scRow25 : AggRow String :=
  { key := "A", total_sales := 30, total_cost := 18, total_quantity := 3,
    profit := 12, profit_margin := .val 25 }

/-- Closed instance of C6 at the concrete rows of the §8 dataset. -/
theorem profit_margin_formulas_diverge_witness :
    (scRow40 ∈ category_aggregated (fun r => r.categoryName) scenarioData)
    ∧ scRow40.profit_margin = (fdiv scRow40.profit scRow40.total_sales).mul100
    ∧ (scRow25 ∈ overall_analysis (fun r => r.categoryName) scenarioData)
    ∧ scRow25.profit_margin
        = (fdiv scRow25.profit (scRow25.total_sales + scRow25.total_cost)).mul100 := by
  have hmem40 : scRow40 ∈ category_aggregated (fun r => r.categoryName) scenarioData := by
    norm_num [category_aggregated, aggKeys, groupOf, salesOf, costOf, qtyOf,
      scenarioData, mkRec, fdiv, FVal.mul100, scRow40, Function.comp,
      List.dedup_cons_of_mem, List.dedup_cons_of_not_mem, List.filter_cons]
  have hmem25 : scRow25 ∈ overall_analysis (fun r => r.categoryName) scenarioData := by
    norm_num [overall_analysis, aggKeys, groupOf, salesOf, costOf, qtyOf,
      scenarioData, mkRec, fdiv, FVal.mul100, scRow25, Function.comp,
      List.dedup_cons_of_mem, List.dedup_cons_of_not_mem, List.filter_cons]
  exact ⟨hmem40,
    profit_margin_formulas_diverge.1 String (fun r => r.categoryName)
      scenarioData scRow40 hmem40,
    hmem25,
    profit_margin_formulas_diverge.2.1 String (fun r => r.categoryName)
      scenarioData scRow25 hmem25⟩

/-- A dataset with two distinct categories: two rows of A, one of B. -/
def topData : List Record :=
  [mkRec (.utc 1) "A" "S1" 10 6 1, mkRec (.utc 2) "A" "S1" 10 6 1,
   mkRec (.utc 3) "B" "S1" 5 5 1]

/-- C10: when the sidebar selection is empty, the default substituted before
`filter_data` is `get_top_categories data n` with `n` defaulting to
`min(250, number of distinct categories)` — so every record of the filtered
result has a category among those top `n` (at most 250) values, and records
of any other category are excluded from the result and from every downstream
analysis. -/
theorem default_selection_limits_to_top (data : List Record)
    (stores : List String) (s e : TS) (fd : List Record) (r : Record)
    (h : (filter_data data
        (selected_categories [] (get_top_categories data (n_categories_default data)))
        stores (some s) (some e)).2 = Except.ok fd)
    (hr : r ∈ fd) :
    r.categoryName ∈ get_top_categories data (n_categories_default data)
    ∧ (get_top_categories data (n_categories_default data)).length
        ≤ n_categories_default data := by
  constructor
  · have hfd : (data.map normRecord).filter
        (passes s.toUTC e.toUTC
          (get_top_categories data (n_categories_default data)) stores) = fd := by
      simpa [filter_data, selected_categories] using h
    rw [← hfd] at hr
    have hp := (List.mem_filter.mp hr).2
    simp [passes, and_assoc] at hp
    exact hp.2.2.1
  · simp only [get_top_categories, List.length_take]
    exact min_le_left _ _

/-- Closed instance of C10 at a concrete dataset with categories A (2 rows)
and B (1 row). -/
theorem default_selection_limits_to_top_witness :
    ((filter_data topData
        (selected_categories [] (get_top_categories topData (n_categories_default topData)))
        ["S1"] (some (.utc 0)) (some (.utc 10))).2 = Except.ok topData)
    ∧ (mkRec (.utc 1) "A" "S1" 10 6 1 ∈ topData)
    ∧ ((mkRec (.utc 1) "A" "S1" 10 6 1).categoryName
          ∈ get_top_categories topData (n_categories_default topData)
        ∧ (get_top_categories topData (n_categories_default topData)).length
            ≤ n_categories_default topData) :=
  ⟨by decide, by decide,
    default_selection_limits_to_top topData ["S1"] (.utc 0) (.utc 10) topData
      (mkRec (.utc 1) "A" "S1" 10 6 1) (by decide) (by decide)⟩
